import Mathlib

/- Shallow embedding of the coredhcp lease-storage subsystem:
   the token and error machinery of src/plugins/leasestorage/token.go and the
   in-memory transient store of src/plugins/leasestorage/transient/leases.go.
   Machine integers (uint64 revision counters) are embedded as Nat with an
   explicit modulus 2 ^ 64 where Go arithmetic wraps; Go time.Time instants are
   embedded as Int; nil-able pointers and interface values as Option; the
   records map as an association list observed through lookupRecord; goroutine
   interleaving is embedded sequentially, except that Update takes the state of
   the records map as re-read under the write lock (interim) as an explicit
   parameter, and the loop-variable capture of the expiration goroutines is
   embedded separately (expireCallbacksGo113). -/

namespace CoreDHCP

/-- net.IPNet: an IP address and a mask, each a raw byte buffer. -/
structure IPNet where
  IP : List Nat
  Mask : List Nat
deriving DecidableEq, Repr

/-- leasestorage.ClientID (clientid.go): a variant tag and raw data bytes. -/
structure ClientID where
  Variant : Nat
  Data : List Nat
deriving DecidableEq, Repr

/-- leasestorage.Lease: Elements, Expire (a wall-clock instant embedded as an
integer), Owner (opaque plugin handle) and ExpireAction (an opaque callback
identifier; none embeds a nil function pointer). -/
structure Lease where
  Elements : List IPNet
  Expire : Int
  Owner : Option Nat
  ExpireAction : Option Nat
deriving DecidableEq, Repr

/-- transient.tokenValue: the revision at which the token was issued, and the
ClientID the token was issued for. -/
structure TokenValue where
  revision : Nat
  cid : ClientID
deriving DecidableEq, Repr

/-- The Go interface value stored in Token.Value: either the transient plugin's
tokenValue, the nil interface (as in the zero Token), or a value of any other
type (as another plugin would store). -/
inductive TokenPayload where
  | nilPayload : TokenPayload
  | tv : TokenValue → TokenPayload
  | other : Nat → TokenPayload
deriving DecidableEq, Repr

/-- leasestorage.Token (token.go): owner is the identity of the issuing store
instance; none embeds a nil owner, i.e. a zero or invalidated token. -/
structure Token where
  owner : Option Nat
  Value : TokenPayload
deriving DecidableEq, Repr

/-- The Go errors reachable in this subsystem: plain errors built by errors.New,
and leasestorage.TokenError values with an optional wrapped inner error and a
message. Every error this code wraps is a plain errors.New error, so the inner
error is embedded by its message string. -/
inductive GoError where
  | plainError : String → GoError
  | tokenError : Option String → String → GoError
deriving DecidableEq, Repr

/-- token.go: ErrToken sentinel. -/
def ErrToken : GoError := GoError.tokenError none "Token invalidated"

/-- token.go: ErrAlreadyInvalid sentinel. -/
def ErrAlreadyInvalid : GoError :=
  GoError.tokenError none "The given token was invalid for this plugin"

/-- token.go: ErrConcurrentUpdate sentinel. -/
def ErrConcurrentUpdate : GoError :=
  GoError.tokenError none "The underlying leases have changed"

/-- errors.Is(e, ErrToken): true exactly for TokenError values, whose Is method
declares them equivalent to ErrToken; plain errors have no Is or Unwrap method
and are not pointer-identical to ErrToken. -/
def errorsIsErrToken : GoError → Bool
  | GoError.tokenError _ _ => true
  | GoError.plainError _ => false

/-- Token.Valid (token.go 25-27): t != nil && t.owner != nil. -/
def Token.Valid : Option Token → Bool
  | none => false
  | some t => t.owner.isSome

/-- Token.IsOwnedBy (token.go 39-43): t != nil && plugin != nil &&
t.owner == plugin. -/
def Token.IsOwnedBy : Option Token → Option Nat → Bool
  | some t, some p => decide (t.owner = some p)
  | _, _ => false

/-- Token.Invalidate (token.go 30-36); the second component counts the
owner.ReleaseToken calls performed (the transient ReleaseToken is a no-op, so
only the count is observable). -/
def Token.Invalidate : Option Token → Option Token × Nat
  | none => (none, 0)
  | some t =>
    match t.owner with
    | none => (some t, 0)
    | some _ => (some { t with owner := none }, 1)

/-- Token.InvalidateWithError (token.go 103-109): invalidate the token, then
return e itself when errors.Is(e, ErrToken) and a TokenError wrapping e
otherwise. Components: token after, ReleaseToken call count, error returned. -/
def Token.InvalidateWithError (t : Option Token) (e : GoError) :
    Option Token × Nat × GoError :=
  ((Token.Invalidate t).1, (Token.Invalidate t).2,
    if errorsIsErrToken e then e
    else
      match e with
      | GoError.plainError m => GoError.tokenError (some m) ""
      | e2 => e2)

/-- NewToken (token.go 47-56): a nil owner yields the zero Token. -/
def NewToken : Option Nat → TokenPayload → Token
  | none, _ => ⟨none, TokenPayload.nilPayload⟩
  | some o, v => ⟨some o, v⟩

/-- The interface value held in a possibly-nil token pointer. -/
def tokenPayload : Option Token → TokenPayload
  | none => TokenPayload.nilPayload
  | some t => t.Value

/-- transient.storage (leases.go 27-36): a per-client record holding a revision
and the leases; its mutex is not embedded, every operation on a record being a
single atomic state transformation here. -/
structure Storage where
  revision : Nat
  leases : List Lease
deriving DecidableEq, Repr

/-- The records map, embedded as an association list whose observable content
is given by lookupRecord. -/
abbrev Records := List (ClientID × Storage)

/-- Go map read records[cid]. -/
def lookupRecord : Records → ClientID → Option Storage
  | [], _ => none
  | (c, st) :: rest, cid => if c = cid then some st else lookupRecord rest cid

/-- In-place mutation of the record stored under an existing key (writing
through the *storage pointer in Go). -/
def setRecord : Records → ClientID → Storage → Records
  | [], _, _ => []
  | (c, st0) :: rest, cid, st =>
    if c = cid then (c, st) :: rest else (c, st0) :: setRecord rest cid st

/-- Go map insertion of a key that is not present. -/
def insertRecord (rs : Records) (cid : ClientID) (st : Storage) : Records :=
  rs ++ [(cid, st)]

/-- Go map delete(records, cid). -/
def removeRecord : Records → ClientID → Records
  | [], _ => []
  | (c, st) :: rest, cid =>
    if c = cid then removeRecord rest cid else (c, st) :: removeRecord rest cid

/-- transient.LeaseStore (leases.go 46-61): storeId embeds the identity of the
instance (the pointer used for token ownership), records the map, currentRev
the global revision counter. -/
structure LeaseStore where
  storeId : Nat
  records : Records
  currentRev : Nat
deriving DecidableEq, Repr

/-- New (leases.go 324-332): empty map, currentRev primed to 1 (the background
expire ticker is not embedded). -/
def LeaseStore.New (storeId : Nat) : LeaseStore := ⟨storeId, [], 1⟩

/-- getRevision (leases.go 98-104): atomically add 1 to currentRev modulo 2^64,
retrying while the result is 0; sequentially the retry loop runs at most twice,
yielding 1. Returns (counter after, value returned). -/
def getRevision (currentRev : Nat) : Nat × Nat :=
  let val := (currentRev + 1) % 2 ^ 64
  if val = 0 then (1, 1) else (val, val)

/-- The element-wise copy performed by make plus copy in duplicateLease. -/
def copyBytes : List Nat → List Nat
  | [] => []
  | b :: bs => b :: copyBytes bs

/-- duplicateLease (leases.go 169-183): a fresh Elements sequence with fresh IP
and Mask byte buffers; Expire, Owner and ExpireAction are copied as-is. -/
def duplicateLease (l : Lease) : Lease :=
  { Elements := l.Elements.map (fun e => ⟨copyBytes e.IP, copyBytes e.Mask⟩),
    Expire := l.Expire, Owner := l.Owner, ExpireAction := l.ExpireAction }

/-- The three return values of Lookup. -/
structure LookupResult where
  leases : List Lease
  token : Token
  err : Option GoError
deriving DecidableEq, Repr

/-- Lookup (leases.go 71-96): deep-copy the record's leases (staying empty when
the record is absent), capture the record's revision (0 when absent), and mint
a token owned by this store with payload (revision, cid). Never errors. -/
def LeaseStore.Lookup (lstore : LeaseStore) (cid : ClientID) : LookupResult :=
  match lookupRecord lstore.records cid with
  | none => ⟨[], NewToken (some lstore.storeId) (TokenPayload.tv ⟨0, cid⟩), none⟩
  | some recs =>
    ⟨recs.leases.map duplicateLease,
     NewToken (some lstore.storeId) (TokenPayload.tv ⟨recs.revision, cid⟩), none⟩

/-- The outcome of Update: the store afterwards, the error returned, the token
as left by the call, and the number of ReleaseToken calls performed. -/
structure UpdResult where
  store : LeaseStore
  err : Option GoError
  token : Option Token
  releases : Nat
deriving DecidableEq, Repr

/-- Update (leases.go 107-167). The interim parameter is the state of the
records map as re-read after the write lock is acquired on the creation path
(leases.go 154); a sequential execution has interim = lstore.records, and a
racing creation is embedded by an interim that binds cid. -/
def LeaseStore.Update (lstore : LeaseStore) (cid : ClientID)
    (newLeases : List Lease) (token : Option Token) (interim : Records) :
    UpdResult :=
  if ! Token.Valid token then
    ⟨lstore, some ErrAlreadyInvalid, token, 0⟩
  else if ! Token.IsOwnedBy token (some lstore.storeId) then
    ⟨lstore, some (GoError.plainError "The token is for another plugin"), token, 0⟩
  else
    match tokenPayload token with
    | TokenPayload.tv tokVal =>
      if tokVal.cid ≠ cid then
        ⟨lstore,
         some (GoError.plainError
           "The token was used for a different client than the one it was issued for"),
         token, 0⟩
      else
        match lookupRecord lstore.records cid with
        | some prev =>
          if prev.revision ≠ tokVal.revision then
            let r := Token.InvalidateWithError token ErrConcurrentUpdate
            ⟨lstore, some r.2.2, r.1, r.2.1⟩
          else if 0 < newLeases.length then
            let g := getRevision lstore.currentRev
            let t := Token.Invalidate token
            ⟨⟨lstore.storeId, setRecord lstore.records cid ⟨g.2, newLeases⟩, g.1⟩,
             none, t.1, t.2⟩
          else
            let t := Token.Invalidate token
            ⟨⟨lstore.storeId, setRecord lstore.records cid ⟨0, []⟩, lstore.currentRev⟩,
             none, t.1, t.2⟩
        | none =>
          if tokVal.revision ≠ 0 then
            let r := Token.InvalidateWithError token ErrConcurrentUpdate
            ⟨lstore, some r.2.2, r.1, r.2.1⟩
          else
            match lookupRecord interim cid with
            | some _ =>
              let r := Token.InvalidateWithError token ErrConcurrentUpdate
              ⟨⟨lstore.storeId, interim, lstore.currentRev⟩, some r.2.2, r.1, r.2.1⟩
            | none =>
              let g := getRevision lstore.currentRev
              let t := Token.Invalidate token
              ⟨⟨lstore.storeId, insertRecord interim cid ⟨g.2, newLeases⟩, g.1⟩,
               none, t.1, t.2⟩
    | _ =>
      let r := Token.InvalidateWithError token (GoError.plainError "Corrupted token")
      ⟨lstore, some r.2.2, r.1, r.2.1⟩

/-- lease.Expire.Before(cutoff): strictly before. -/
def leaseExpired (cutoff : Int) (l : Lease) : Bool :=
  decide (l.Expire < cutoff)

/-- One asynchronous callback invocation: the action identifier together with
the arguments it receives. -/
structure CallbackCall where
  action : Nat
  elements : List IPNet
  expiredAt : Int
deriving DecidableEq, Repr

/-- The callback registration performed for one expired lease when its
ExpireAction is non-nil: one asynchronous invocation with that lease's own
Elements and Expire (the value reading of leases.go 234-241; the go 1.13
loop-variable behaviour is embedded separately below). -/
def leaseCallback (l : Lease) : List CallbackCall :=
  match l.ExpireAction with
  | some a => [⟨a, l.Elements, l.Expire⟩]
  | none => []

/-- What the per-record loop of Expire accumulates. -/
structure ScanResult where
  cleanedLeases : Option (List Lease)
  cleaned : Nat
  callbacks : List CallbackCall
deriving DecidableEq, Repr

/-- The per-record lease loop of Expire (leases.go 228-257): rest is the part
of v.leases still to scan, seen the prefix already scanned, acc the
cleanedLeases slice (none while no lease has expired; on the first expired
lease it is seeded with the already-scanned, necessarily non-expired, prefix),
cleaned the running count and cbs the spawned callbacks. -/
def scanLeases (cutoff : Int) (rest seen : List Lease) (acc : Option (List Lease))
    (cleaned : Nat) (cbs : List CallbackCall) : ScanResult :=
  match rest with
  | [] => ⟨acc, cleaned, cbs⟩
  | l :: rest2 =>
    if leaseExpired cutoff l then
      scanLeases cutoff rest2 (seen ++ [l]) (some (acc.getD seen)) (cleaned + 1)
        (cbs ++ leaseCallback l)
    else
      scanLeases cutoff rest2 (seen ++ [l]) (acc.map (fun xs => xs ++ [l])) cleaned cbs

/-- The outcome of processing one record inside the sweep. -/
structure ExpireStep where
  stor : Storage
  currentRev : Nat
  cleaned : Nat
  candidate : Bool
  callbacks : List CallbackCall
deriving DecidableEq, Repr

/-- Processing of one record with non-zero revision inside Expire
(leases.go 228-267): scan the leases; when no lease expired the record is
untouched; when the surviving slice is non-empty install it with a fresh
revision; otherwise reset the record and mark it as a cleanup candidate. -/
def expireRecordStep (cutoff : Int) (cur : Nat) (st : Storage) : ExpireStep :=
  let r := scanLeases cutoff st.leases [] none 0 []
  match r.cleanedLeases with
  | none => ⟨st, cur, r.cleaned, false, r.callbacks⟩
  | some xs =>
    if 0 < xs.length then
      let g := getRevision cur
      ⟨⟨g.2, xs⟩, g.1, r.cleaned, false, r.callbacks⟩
    else
      ⟨⟨0, []⟩, cur, r.cleaned, true, r.callbacks⟩

/-- What Expire returns and hands over: the records afterwards, the counter,
the cleaned count, the candidates handed to the asynchronous cleanup pass, and
the callbacks spawned. -/
structure ExpireResult where
  records : Records
  currentRev : Nat
  cleaned : Nat
  candidates : List ClientID
  callbacks : List CallbackCall
deriving DecidableEq, Repr

/-- The sweep loop of Expire (leases.go 217-275) in map iteration order:
records at revision 0 immediately become cleanup candidates and do not stop the
sweep; every other record is processed by expireRecordStep, and the sweep
breaks once cleaned >= workAmount. -/
def expireLoop (cutoff : Int) (workAmount : Int) (rs : Records) (cur : Nat)
    (cleaned : Nat) (cands : List ClientID) (cbs : List CallbackCall) :
    ExpireResult :=
  match rs with
  | [] => ⟨[], cur, cleaned, cands, cbs⟩
  | (c, st) :: rest =>
    if st.revision = 0 then
      let r := expireLoop cutoff workAmount rest cur cleaned (cands ++ [c]) cbs
      ⟨(c, st) :: r.records, r.currentRev, r.cleaned, r.candidates, r.callbacks⟩
    else
      let step := expireRecordStep cutoff cur st
      let cleaned2 := cleaned + step.cleaned
      let cands2 := if step.candidate then cands ++ [c] else cands
      let cbs2 := cbs ++ step.callbacks
      if workAmount ≤ (cleaned2 : Int) then
        ⟨(c, step.stor) :: rest, step.currentRev, cleaned2, cands2, cbs2⟩
      else
        let r := expireLoop cutoff workAmount rest step.currentRev cleaned2 cands2 cbs2
        ⟨(c, step.stor) :: r.records, r.currentRev, r.cleaned, r.candidates, r.callbacks⟩

/-- leases.go 23-25: expireGrace is one minute (time embedded in seconds). -/
def expireGrace : Int := 60

/-- Expire (leases.go 213-289): cutoff = now - expireGrace; the candidates
component is what is handed to the asynchronous cleanup pass. -/
def LeaseStore.Expire (lstore : LeaseStore) (workAmount : Int) (now : Int) :
    ExpireResult :=
  expireLoop (now - expireGrace) workAmount lstore.records lstore.currentRev 0 [] []

/-- One candidate of the cleanup pass (leases.go 293-306): a missing entry is
skipped, an entry resurrected to a non-zero revision is skipped, and an entry
still at revision 0 is deleted from the map. -/
def cleanupOne (rs : Records) (c : ClientID) : Records :=
  match lookupRecord rs c with
  | none => rs
  | some st => if st.revision ≠ 0 then rs else removeRecord rs c

/-- cleanup (leases.go 291-309), over the whole candidates list. -/
def cleanup : Records → List ClientID → Records
  | rs, [] => rs
  | rs, c :: cs => cleanup (cleanupOne rs c) cs

/-- Total number of leases held across all records. -/
def totalLeases (rs : Records) : Nat :=
  (rs.map (fun p => p.2.leases.length)).sum

/-- The trajectory of currentRev from a fresh store (New primes the counter to
1): position n is the counter after n getRevision calls, which is also the
revision issued by the n-th call, since getRevision stores the value it
returns. -/
def revisionSeq : Nat → Nat
  | 0 => 1
  | n + 1 => (getRevision (revisionSeq n)).1

/-- The invocation performed by one of Expire's spawned goroutines at the
moment it runs, given the value then held by the shared loop variable lease:
the goroutine body at leases.go 237-240 reads lease.ExpireAction,
lease.Elements and lease.Expire at run time; none embeds the panic of invoking
a nil ExpireAction. -/
def runDelayedCallbackGo113 (l : Lease) : Option CallbackCall :=
  match l.ExpireAction with
  | some a => some ⟨a, l.Elements, l.Expire⟩
  | none => none

/-- The callback invocations of one record's sweep under the loop-variable
semantics that apply to this module (go.mod declares go 1.13, so the range
variable lease at leases.go 228 is one variable shared by all iterations and
captured by reference by each spawned closure), under the schedule in which the
goroutines run after the record's loop has finished: one goroutine is spawned
per expired lease whose action is non-nil at spawn time, and each invocation
then reads the shared variable, which holds the last element of v.leases. -/
def expireCallbacksGo113 (cutoff : Int) (leases : List Lease) :
    List (Option CallbackCall) :=
  match leases.getLast? with
  | none => []
  | some lastLease =>
    List.replicate
      ((leases.filter (fun l => leaseExpired cutoff l && l.ExpireAction.isSome)).length)
      (runDelayedCallbackGo113 lastLease)

/-- copyBytes copies the buffer element for element. -/
theorem copyBytes_eq (b : List Nat) : copyBytes b = b := by
  induction b with
  | nil => rfl
  | cons x xs ih => simp [copyBytes, ih]

/-- The deep copy of a lease is value-equal to the lease. -/
theorem duplicateLease_eq (l : Lease) : duplicateLease l = l := by
  cases l with
  | mk es ex ow ac =>
    simp only [duplicateLease]
    congr 1
    induction es with
    | nil => rfl
    | cons e rest ih =>
      cases e
      simp [copyBytes_eq, ih]

theorem lookupRecord_setRecord_self (rs : Records) (cid : ClientID) (st st0 : Storage)
    (h : lookupRecord rs cid = some st0) :
    lookupRecord (setRecord rs cid st) cid = some st := by
  induction rs with
  | nil => simp [lookupRecord] at h
  | cons p rest ih =>
    obtain ⟨c, stc⟩ := p
    by_cases hc : c = cid
    · simp [lookupRecord, setRecord, hc]
    · simp only [lookupRecord, setRecord, if_neg hc] at h ⊢
      exact ih h

theorem lookupRecord_setRecord_other (rs : Records) (cid x : ClientID) (st : Storage)
    (h : x ≠ cid) : lookupRecord (setRecord rs cid st) x = lookupRecord rs x := by
  induction rs with
  | nil => rfl
  | cons p rest ih =>
    obtain ⟨c, stc⟩ := p
    by_cases hc : c = cid
    · subst hc
      have hcx : ¬ c = x := fun hcx => h hcx.symm
      simp [lookupRecord, setRecord, hcx]
    · simp only [setRecord, if_neg hc, lookupRecord]
      by_cases hcx : c = x
      · simp [hcx]
      · simp [hcx, ih]

theorem setRecord_of_absent (rs : Records) (cid : ClientID) (st : Storage)
    (h : lookupRecord rs cid = none) : setRecord rs cid st = rs := by
  induction rs with
  | nil => rfl
  | cons p rest ih =>
    obtain ⟨c, stc⟩ := p
    by_cases hc : c = cid
    · simp [lookupRecord, hc] at h
    · simp only [lookupRecord, if_neg hc] at h
      simp [setRecord, hc, ih h]

theorem lookupRecord_append_single (rs : Records) (c x : ClientID) (st : Storage) :
    lookupRecord (insertRecord rs c st) x =
      match lookupRecord rs x with
      | some st0 => some st0
      | none => if c = x then some st else none := by
  induction rs with
  | nil => simp [insertRecord, lookupRecord]
  | cons p rest ih =>
    obtain ⟨c0, st0⟩ := p
    by_cases hc : c0 = x
    · simp [insertRecord, lookupRecord, hc]
    · simpa [insertRecord, lookupRecord, hc] using ih

theorem lookupRecord_insertRecord_self (rs : Records) (cid : ClientID) (st : Storage)
    (h : lookupRecord rs cid = none) :
    lookupRecord (insertRecord rs cid st) cid = some st := by
  simp [lookupRecord_append_single, h]

theorem lookupRecord_insertRecord_other (rs : Records) (cid x : ClientID) (st : Storage)
    (h : x ≠ cid) : lookupRecord (insertRecord rs cid st) x = lookupRecord rs x := by
  rw [lookupRecord_append_single]
  cases hr : lookupRecord rs x with
  | some st0 => rfl
  | none =>
    have hcx : ¬ cid = x := fun hcx => h hcx.symm
    simp [hcx]

theorem lookupRecord_removeRecord_self (rs : Records) (c : ClientID) :
    lookupRecord (removeRecord rs c) c = none := by
  induction rs with
  | nil => rfl
  | cons p rest ih =>
    obtain ⟨c0, st0⟩ := p
    by_cases hc : c0 = c
    · simp [removeRecord, hc, ih]
    · simp [removeRecord, hc, lookupRecord, ih]

theorem lookupRecord_removeRecord_other (rs : Records) (c x : ClientID) (h : x ≠ c) :
    lookupRecord (removeRecord rs c) x = lookupRecord rs x := by
  induction rs with
  | nil => rfl
  | cons p rest ih =>
    obtain ⟨c0, st0⟩ := p
    by_cases hc : c0 = c
    · subst hc
      have hcx : ¬ c0 = x := fun hcx => h hcx.symm
      simp [removeRecord, lookupRecord, hcx, ih]
    · simp only [removeRecord, if_neg hc, lookupRecord]
      by_cases hcx : c0 = x
      · simp [hcx]
      · simp [hcx, ih]

theorem scanLeases_cleaned (cutoff : Int) (rest : List Lease) :
    ∀ (seen : List Lease) (acc : Option (List Lease)) (cl : Nat)
      (cbs : List CallbackCall),
    (scanLeases cutoff rest seen acc cl cbs).cleaned =
      cl + (rest.filter (leaseExpired cutoff)).length := by
  induction rest with
  | nil => intro seen acc cl cbs; simp [scanLeases]
  | cons l rest2 ih =>
    intro seen acc cl cbs
    by_cases hl : leaseExpired cutoff l
    · simp [scanLeases, hl, ih]
      omega
    · simp [scanLeases, hl, ih]

theorem scanLeases_acc_some (cutoff : Int) (rest : List Lease) :
    ∀ (xs seen : List Lease) (cl : Nat) (cbs : List CallbackCall),
    (scanLeases cutoff rest seen (some xs) cl cbs).cleanedLeases =
      some (xs ++ rest.filter (fun l => ! leaseExpired cutoff l)) := by
  induction rest with
  | nil => intro xs seen cl cbs; simp [scanLeases]
  | cons l rest2 ih =>
    intro xs seen cl cbs
    by_cases hl : leaseExpired cutoff l
    · simp [scanLeases, hl, ih]
    · simp [scanLeases, hl, ih]

theorem scanLeases_acc_none (cutoff : Int) (rest : List Lease) :
    ∀ (seen : List Lease) (cl : Nat) (cbs : List CallbackCall),
    (scanLeases cutoff rest seen none cl cbs).cleanedLeases =
      if rest.any (leaseExpired cutoff) then
        some (seen ++ rest.filter (fun l => ! leaseExpired cutoff l))
      else none := by
  induction rest with
  | nil => intro seen cl cbs; simp [scanLeases]
  | cons l rest2 ih =>
    intro seen cl cbs
    by_cases hl : leaseExpired cutoff l
    · simp [scanLeases, hl, scanLeases_acc_some]
    · rw [show scanLeases cutoff (l :: rest2) seen none cl cbs =
            scanLeases cutoff rest2 (seen ++ [l]) none cl cbs from by
          simp [scanLeases, hl]]
      rw [ih]
      by_cases ha : rest2.any (leaseExpired cutoff)
      · simp [ha, hl, List.filter_cons, List.append_assoc]
      · simp [ha, hl]

theorem length_filter_partition (p : Lease → Bool) (l : List Lease) :
    (l.filter (fun a => ! p a)).length + (l.filter p).length = l.length := by
  induction l with
  | nil => rfl
  | cons a as ih =>
    by_cases h : p a
    · simp [h]
      omega
    · simp [h]
      omega

theorem expireRecordStep_leases_cleaned (cutoff : Int) (cur : Nat) (st : Storage) :
    (expireRecordStep cutoff cur st).stor.leases =
      st.leases.filter (fun l => ! leaseExpired cutoff l) ∧
    (expireRecordStep cutoff cur st).cleaned =
      (st.leases.filter (leaseExpired cutoff)).length := by
  have hC := scanLeases_cleaned cutoff st.leases [] none 0 []
  have hL := scanLeases_acc_none cutoff st.leases [] 0 []
  by_cases ha : st.leases.any (leaseExpired cutoff)
  · rw [if_pos ha, List.nil_append] at hL
    rcases Nat.eq_zero_or_pos (st.leases.filter (fun l => ! leaseExpired cutoff l)).length
      with hx | hx
    · have hnil := List.length_eq_zero.mp hx
      constructor
      · simp [expireRecordStep, hL, hnil]
      · simp [expireRecordStep, hL, hnil, hC]
    · constructor
      · simp [expireRecordStep, hL, hx]
      · simp [expireRecordStep, hL, hx, hC]
  · rw [if_neg ha] at hL
    have hall : ∀ l ∈ st.leases, ¬ leaseExpired cutoff l = true := by
      simpa [List.any_eq_true] using ha
    have hfil : st.leases.filter (fun l => ! leaseExpired cutoff l) = st.leases := by
      apply List.filter_eq_self.mpr
      intro a hmem
      simp [hall a hmem]
    constructor
    · simp [expireRecordStep, hL, hfil]
    · simp [expireRecordStep, hL, hC]

theorem expireRecordStep_revision_cases (cutoff : Int) (cur : Nat) (st : Storage) :
    (expireRecordStep cutoff cur st).stor.revision = st.revision ∨
    (expireRecordStep cutoff cur st).stor.revision = 0 ∨
    (expireRecordStep cutoff cur st).stor.revision = (getRevision cur).2 := by
  simp only [expireRecordStep]
  split
  · exact Or.inl rfl
  · split
    · exact Or.inr (Or.inr rfl)
    · exact Or.inr (Or.inl rfl)

theorem totalLeases_cons (c : ClientID) (st : Storage) (rs : Records) :
    totalLeases ((c, st) :: rs) = st.leases.length + totalLeases rs := by
  simp [totalLeases]

theorem expireLoop_cleaned_eq (cutoff workAmount : Int) (rs : Records) :
    ∀ (cur cl : Nat) (cands : List ClientID) (cbs : List CallbackCall),
    (expireLoop cutoff workAmount rs cur cl cands cbs).cleaned +
      totalLeases (expireLoop cutoff workAmount rs cur cl cands cbs).records =
      cl + totalLeases rs := by
  induction rs with
  | nil => intro cur cl cands cbs; simp [expireLoop, totalLeases]
  | cons p rest ih =>
    intro cur cl cands cbs
    obtain ⟨c, st⟩ := p
    have hstep : (expireRecordStep cutoff cur st).stor.leases.length +
        (expireRecordStep cutoff cur st).cleaned = st.leases.length := by
      have hs := expireRecordStep_leases_cleaned cutoff cur st
      rw [hs.1, hs.2]
      exact length_filter_partition _ _
    by_cases h0 : st.revision = 0
    · simp only [expireLoop, h0, if_true]
      rw [totalLeases_cons, totalLeases_cons]
      have hih := ih cur cl (cands ++ [c]) cbs
      omega
    · simp only [expireLoop, h0, if_false]
      by_cases hw : workAmount ≤ ((cl + (expireRecordStep cutoff cur st).cleaned : Nat) : Int)
      · simp only [hw, if_true]
        rw [totalLeases_cons, totalLeases_cons]
        omega
      · simp only [hw, if_false]
        rw [totalLeases_cons, totalLeases_cons]
        have hih := ih (expireRecordStep cutoff cur st).currentRev
          (cl + (expireRecordStep cutoff cur st).cleaned)
          (if (expireRecordStep cutoff cur st).candidate = true then cands ++ [c] else cands)
          (cbs ++ (expireRecordStep cutoff cur st).callbacks)
        omega

theorem cleanupOne_keeps_nonzero (rs : Records) (c0 x : ClientID) (st : Storage)
    (h : lookupRecord rs x = some st) (hrev : st.revision ≠ 0) :
    lookupRecord (cleanupOne rs c0) x = some st := by
  cases hc : lookupRecord rs c0 with
  | none =>
    simp only [cleanupOne, hc]
    exact h
  | some st0 =>
    simp only [cleanupOne, hc]
    by_cases h0 : st0.revision ≠ 0
    · rw [if_pos h0]
      exact h
    · rw [if_neg h0]
      by_cases hx : x = c0
      · subst hx
        rw [h] at hc
        cases hc
        exact absurd (by omega : st.revision = 0) hrev
      · rw [lookupRecord_removeRecord_other rs c0 x hx]
        exact h

theorem cleanupOne_other (rs : Records) (c0 x : ClientID) (hx : x ≠ c0) :
    lookupRecord (cleanupOne rs c0) x = lookupRecord rs x := by
  cases hc : lookupRecord rs c0 with
  | none => simp only [cleanupOne, hc]
  | some st0 =>
    simp only [cleanupOne, hc]
    by_cases h0 : st0.revision ≠ 0
    · rw [if_pos h0]
    · rw [if_neg h0]
      exact lookupRecord_removeRecord_other rs c0 x hx

theorem cleanup_keeps_nonzero (cands : List ClientID) :
    ∀ (rs : Records) (x : ClientID) (st : Storage),
    lookupRecord rs x = some st → st.revision ≠ 0 →
    lookupRecord (cleanup rs cands) x = some st := by
  induction cands with
  | nil => intro rs x st h _; exact h
  | cons c cs ih =>
    intro rs x st h hrev
    simp only [cleanup]
    exact ih _ x st (cleanupOne_keeps_nonzero rs c x st h hrev) hrev

theorem cleanup_not_candidate (cands : List ClientID) :
    ∀ (rs : Records) (x : ClientID), x ∉ cands →
    lookupRecord (cleanup rs cands) x = lookupRecord rs x := by
  induction cands with
  | nil => intro rs x _; rfl
  | cons c cs ih =>
    intro rs x hx
    simp only [List.mem_cons, not_or] at hx
    simp only [cleanup]
    rw [ih _ x hx.2]
    exact cleanupOne_other rs c x hx.1

theorem revisionSeq_formula : ∀ n : Nat, revisionSeq n = n % (2 ^ 64 - 1) + 1 := by
  have e64 : (2 : Nat) ^ 64 = 18446744073709551616 := by norm_num
  intro n
  induction n with
  | zero => simp [revisionSeq]
  | succ n ih =>
    show (getRevision (revisionSeq n)).1 = _
    rw [ih]
    unfold getRevision
    by_cases hc : (n % (2 ^ 64 - 1) + 1 + 1) % 2 ^ 64 = 0
    · simp only [hc, if_true]
      rw [e64] at hc ⊢
      omega
    · simp only [hc, if_false]
      rw [e64] at hc ⊢
      omega

theorem Update_records_result (s : LeaseStore) (cid : ClientID) (nl : List Lease)
    (token : Option Token) (interim : Records) :
    (s.Update cid nl token interim).store.records = s.records ∨
    (s.Update cid nl token interim).store.records = interim ∨
    (∃ st, (s.Update cid nl token interim).store.records = setRecord s.records cid st ∧
       (st.revision = 0 ∨ st.revision = (getRevision s.currentRev).2)) ∨
    (∃ st, (s.Update cid nl token interim).store.records = insertRecord interim cid st ∧
       st.revision = (getRevision s.currentRev).2) := by
  unfold LeaseStore.Update
  repeat' split
  all_goals first
    | exact Or.inl rfl
    | exact Or.inr (Or.inl rfl)
    | exact Or.inr (Or.inr (Or.inl ⟨⟨(getRevision s.currentRev).2, nl⟩, rfl, Or.inr rfl⟩))
    | exact Or.inr (Or.inr (Or.inl ⟨⟨0, []⟩, rfl, Or.inl rfl⟩))
    | exact Or.inr (Or.inr (Or.inr ⟨⟨(getRevision s.currentRev).2, nl⟩, rfl, rfl⟩))

theorem Update_invalid (s : LeaseStore) (cid : ClientID) (nl : List Lease)
    (token : Option Token) (interim : Records) (h : Token.Valid token = false) :
    s.Update cid nl token interim = ⟨s, some ErrAlreadyInvalid, token, 0⟩ := by
  simp [LeaseStore.Update, h]

theorem Update_foreign (s : LeaseStore) (cid : ClientID) (nl : List Lease)
    (token : Option Token) (interim : Records) (hv : Token.Valid token = true)
    (ho : Token.IsOwnedBy token (some s.storeId) = false) :
    s.Update cid nl token interim =
      ⟨s, some (GoError.plainError "The token is for another plugin"), token, 0⟩ := by
  simp [LeaseStore.Update, hv, ho]

theorem Update_corrupt (s : LeaseStore) (cid : ClientID) (nl : List Lease)
    (interim : Records) (tok : Token) (hown : tok.owner = some s.storeId)
    (hpay : ∀ v, tok.Value ≠ TokenPayload.tv v) :
    s.Update cid nl (some tok) interim =
      ⟨s, some (GoError.tokenError (some "Corrupted token") ""),
       some { tok with owner := none }, 1⟩ := by
  cases htv : tok.Value with
  | tv v => exact absurd htv (hpay v)
  | nilPayload =>
    simp [LeaseStore.Update, Token.Valid, Token.IsOwnedBy, tokenPayload, hown, htv,
      Token.InvalidateWithError, Token.Invalidate, errorsIsErrToken]
  | other n =>
    simp [LeaseStore.Update, Token.Valid, Token.IsOwnedBy, tokenPayload, hown, htv,
      Token.InvalidateWithError, Token.Invalidate, errorsIsErrToken]

theorem Update_cid_mismatch (s : LeaseStore) (cid : ClientID) (nl : List Lease)
    (interim : Records) (tok : Token) (v : TokenValue)
    (hown : tok.owner = some s.storeId) (hpay : tok.Value = TokenPayload.tv v)
    (hcid : v.cid ≠ cid) :
    s.Update cid nl (some tok) interim =
      ⟨s,
       some (GoError.plainError
         "The token was used for a different client than the one it was issued for"),
       some tok, 0⟩ := by
  simp [LeaseStore.Update, Token.Valid, Token.IsOwnedBy, tokenPayload, hown, hpay, hcid]

theorem Update_rev_mismatch (s : LeaseStore) (cid : ClientID) (nl : List Lease)
    (interim : Records) (tok : Token) (v : TokenValue) (prev : Storage)
    (hown : tok.owner = some s.storeId) (hpay : tok.Value = TokenPayload.tv v)
    (hcid : v.cid = cid) (hrec : lookupRecord s.records cid = some prev)
    (hne : prev.revision ≠ v.revision) :
    s.Update cid nl (some tok) interim =
      ⟨s, some ErrConcurrentUpdate, some { tok with owner := none }, 1⟩ := by
  simp [LeaseStore.Update, Token.Valid, Token.IsOwnedBy, tokenPayload, hown, hpay, hcid,
    hrec, hne, Token.InvalidateWithError, Token.Invalidate, errorsIsErrToken,
    ErrConcurrentUpdate]

theorem Update_commit_existing_nonempty (s : LeaseStore) (cid : ClientID)
    (nl : List Lease) (interim : Records) (tok : Token) (v : TokenValue) (prev : Storage)
    (hown : tok.owner = some s.storeId) (hpay : tok.Value = TokenPayload.tv v)
    (hcid : v.cid = cid) (hrec : lookupRecord s.records cid = some prev)
    (hrev : prev.revision = v.revision) (hnl : 0 < nl.length) :
    s.Update cid nl (some tok) interim =
      ⟨⟨s.storeId, setRecord s.records cid ⟨(getRevision s.currentRev).2, nl⟩,
        (getRevision s.currentRev).1⟩, none, some { tok with owner := none }, 1⟩ := by
  simp [LeaseStore.Update, Token.Valid, Token.IsOwnedBy, tokenPayload, hown, hpay, hcid,
    hrec, hrev, hnl, Token.Invalidate]

theorem Update_commit_existing_empty (s : LeaseStore) (cid : ClientID)
    (nl : List Lease) (interim : Records) (tok : Token) (v : TokenValue) (prev : Storage)
    (hown : tok.owner = some s.storeId) (hpay : tok.Value = TokenPayload.tv v)
    (hcid : v.cid = cid) (hrec : lookupRecord s.records cid = some prev)
    (hrev : prev.revision = v.revision) (hnl : nl.length = 0) :
    s.Update cid nl (some tok) interim =
      ⟨⟨s.storeId, setRecord s.records cid ⟨0, []⟩, s.currentRev⟩,
       none, some { tok with owner := none }, 1⟩ := by
  simp [LeaseStore.Update, Token.Valid, Token.IsOwnedBy, tokenPayload, hown, hpay, hcid,
    hrec, hrev, hnl, Token.Invalidate]

theorem Update_reject_create_nonzero (s : LeaseStore) (cid : ClientID)
    (nl : List Lease) (interim : Records) (tok : Token) (v : TokenValue)
    (hown : tok.owner = some s.storeId) (hpay : tok.Value = TokenPayload.tv v)
    (hcid : v.cid = cid) (hrec : lookupRecord s.records cid = none)
    (hv : v.revision ≠ 0) :
    s.Update cid nl (some tok) interim =
      ⟨s, some ErrConcurrentUpdate, some { tok with owner := none }, 1⟩ := by
  simp [LeaseStore.Update, Token.Valid, Token.IsOwnedBy, tokenPayload, hown, hpay, hcid,
    hrec, hv, Token.InvalidateWithError, Token.Invalidate, errorsIsErrToken,
    ErrConcurrentUpdate]

theorem Update_reject_create_race (s : LeaseStore) (cid : ClientID)
    (nl : List Lease) (interim : Records) (tok : Token) (v : TokenValue) (st2 : Storage)
    (hown : tok.owner = some s.storeId) (hpay : tok.Value = TokenPayload.tv v)
    (hcid : v.cid = cid) (hrec : lookupRecord s.records cid = none)
    (hv : v.revision = 0) (hint : lookupRecord interim cid = some st2) :
    s.Update cid nl (some tok) interim =
      ⟨⟨s.storeId, interim, s.currentRev⟩, some ErrConcurrentUpdate,
       some { tok with owner := none }, 1⟩ := by
  simp [LeaseStore.Update, Token.Valid, Token.IsOwnedBy, tokenPayload, hown, hpay, hcid,
    hrec, hv, hint, Token.InvalidateWithError, Token.Invalidate, errorsIsErrToken,
    ErrConcurrentUpdate]

theorem Update_commit_create (s : LeaseStore) (cid : ClientID)
    (nl : List Lease) (interim : Records) (tok : Token) (v : TokenValue)
    (hown : tok.owner = some s.storeId) (hpay : tok.Value = TokenPayload.tv v)
    (hcid : v.cid = cid) (hrec : lookupRecord s.records cid = none)
    (hv : v.revision = 0) (hint : lookupRecord interim cid = none) :
    s.Update cid nl (some tok) interim =
      ⟨⟨s.storeId, insertRecord interim cid ⟨(getRevision s.currentRev).2, nl⟩,
        (getRevision s.currentRev).1⟩, none, some { tok with owner := none }, 1⟩ := by
  simp [LeaseStore.Update, Token.Valid, Token.IsOwnedBy, tokenPayload, hown, hpay, hcid,
    hrec, hv, hint, Token.Invalidate]

theorem getRevision_ne_zero (c : Nat) : (getRevision c).2 ≠ 0 := by
  simp only [getRevision]
  split
  · simp
  · next h => simpa using h

theorem getRevision_counter_eq (c : Nat) : (getRevision c).1 = (getRevision c).2 := by
  simp only [getRevision]
  split
  · rfl
  · rfl

theorem getRevision_val_of_lt (c : Nat) (h : c + 1 < 2 ^ 64) : (getRevision c).2 = c + 1 := by
  unfold getRevision
  rw [Nat.mod_eq_of_lt h]
  simp

theorem map_duplicateLease_eq (ls : List Lease) : ls.map duplicateLease = ls := by
  induction ls with
  | nil => rfl
  | cons a as ih => simp [duplicateLease_eq, ih]

/-- C1: when the precondition checks pass, every CONCURRENT_UPDATE branch of
Update (revision mismatch on an existing record; absent record with a token
revision other than 0; record absent at the first read but present at the
re-read under the write lock) returns ErrConcurrentUpdate, invalidates the
passed token (owner cleared, exactly one ReleaseToken call), and leaves every
record and the key set of the map exactly as they were. -/
theorem update_concurrent_update_rejection (s : LeaseStore) (cid : ClientID)
    (newLeases : List Lease) (tok : Token) (interim : Records) (v : TokenValue)
    (hown : tok.owner = some s.storeId) (hpay : tok.Value = TokenPayload.tv v)
    (hcid : v.cid = cid) :
    (∀ prev, lookupRecord s.records cid = some prev → prev.revision ≠ v.revision →
      s.Update cid newLeases (some tok) interim =
        ⟨s, some ErrConcurrentUpdate, some { tok with owner := none }, 1⟩) ∧
    (lookupRecord s.records cid = none → v.revision ≠ 0 →
      s.Update cid newLeases (some tok) interim =
        ⟨s, some ErrConcurrentUpdate, some { tok with owner := none }, 1⟩) ∧
    (∀ st2, lookupRecord s.records cid = none → v.revision = 0 →
      lookupRecord interim cid = some st2 →
      s.Update cid newLeases (some tok) interim =
        ⟨⟨s.storeId, interim, s.currentRev⟩, some ErrConcurrentUpdate,
         some { tok with owner := none }, 1⟩) := by
  refine ⟨?_, ?_, ?_⟩
  · intro prev hrec hne
    exact Update_rev_mismatch s cid newLeases interim tok v prev hown hpay hcid hrec hne
  · intro hrec hv
    exact Update_reject_create_nonzero s cid newLeases interim tok v hown hpay hcid hrec hv
  · intro st2 hrec hv hint
    exact Update_reject_create_race s cid newLeases interim tok v st2 hown hpay hcid hrec
      hv hint

/-- Witness for C1: a store holding a record at revision 5 rejects an update
through a token issued at revision 3, leaving the store unchanged. -/
theorem update_concurrent_update_rejection_witness :
    LeaseStore.Update ⟨7, [(⟨0, [1]⟩, ⟨5, []⟩)], 9⟩ ⟨0, [1]⟩ []
        (some ⟨some 7, TokenPayload.tv ⟨3, ⟨0, [1]⟩⟩⟩) [(⟨0, [1]⟩, ⟨5, []⟩)] =
      ⟨⟨7, [(⟨0, [1]⟩, ⟨5, []⟩)], 9⟩, some ErrConcurrentUpdate,
       some ⟨none, TokenPayload.tv ⟨3, ⟨0, [1]⟩⟩⟩, 1⟩ :=
  (update_concurrent_update_rejection ⟨7, [(⟨0, [1]⟩, ⟨5, []⟩)], 9⟩ ⟨0, [1]⟩ []
      ⟨some 7, TokenPayload.tv ⟨3, ⟨0, [1]⟩⟩⟩ [(⟨0, [1]⟩, ⟨5, []⟩)] ⟨3, ⟨0, [1]⟩⟩
      rfl rfl rfl).1 ⟨5, []⟩ (by decide) (by decide)

/-- C2: a committing Update invalidates the passed token, leaves every other
ClientID untouched, and afterwards: with a non-empty lease set the record holds
exactly newLeases under the fresh non-zero revision drawn from the counter
(covering creation when the record was absent and the token revision was 0,
which a commit from an absent record forces); with an empty set against an
existing record the record is reset to no leases at revision 0 while staying a
key of the map. -/
theorem update_commit_spec (s : LeaseStore) (cid : ClientID) (newLeases : List Lease)
    (tok : Token) (v : TokenValue)
    (hown : tok.owner = some s.storeId) (hpay : tok.Value = TokenPayload.tv v)
    (hcid : v.cid = cid)
    (hcommit : (s.Update cid newLeases (some tok) s.records).err = none) :
    (s.Update cid newLeases (some tok) s.records).token =
      some { tok with owner := none } ∧
    (s.Update cid newLeases (some tok) s.records).releases = 1 ∧
    (∀ c, c ≠ cid →
      lookupRecord (s.Update cid newLeases (some tok) s.records).store.records c =
        lookupRecord s.records c) ∧
    (0 < newLeases.length →
      lookupRecord (s.Update cid newLeases (some tok) s.records).store.records cid =
        some ⟨(getRevision s.currentRev).2, newLeases⟩ ∧
      (getRevision s.currentRev).2 ≠ 0) ∧
    (newLeases.length = 0 → ∀ prev, lookupRecord s.records cid = some prev →
      lookupRecord (s.Update cid newLeases (some tok) s.records).store.records cid =
        some ⟨0, []⟩) ∧
    (lookupRecord s.records cid = none → v.revision = 0) := by
  cases hrec : lookupRecord s.records cid with
  | some prev =>
    by_cases hrev : prev.revision = v.revision
    · rcases Nat.eq_zero_or_pos newLeases.length with hnl | hnl
      · have hres := Update_commit_existing_empty s cid newLeases s.records tok v prev
          hown hpay hcid hrec hrev hnl
        rw [hres]
        refine ⟨rfl, rfl, ?_, ?_, ?_, ?_⟩
        · intro c hc
          exact lookupRecord_setRecord_other s.records cid c ⟨0, []⟩ hc
        · intro hpos
          omega
        · intro _ prev2 _
          exact lookupRecord_setRecord_self s.records cid ⟨0, []⟩ prev hrec
        · intro habs
          simp [hrec] at habs
      · have hres := Update_commit_existing_nonempty s cid newLeases s.records tok v prev
          hown hpay hcid hrec hrev hnl
        rw [hres]
        refine ⟨rfl, rfl, ?_, ?_, ?_, ?_⟩
        · intro c hc
          exact lookupRecord_setRecord_other s.records cid c _ hc
        · intro _
          exact ⟨lookupRecord_setRecord_self s.records cid _ prev hrec,
                 getRevision_ne_zero s.currentRev⟩
        · intro h0
          omega
        · intro habs
          simp [hrec] at habs
    · have hres := Update_rev_mismatch s cid newLeases s.records tok v prev
        hown hpay hcid hrec hrev
      rw [hres] at hcommit
      simp at hcommit
  | none =>
    by_cases hv : v.revision = 0
    · have hres := Update_commit_create s cid newLeases s.records tok v
        hown hpay hcid hrec hv hrec
      rw [hres]
      refine ⟨rfl, rfl, ?_, ?_, ?_, ?_⟩
      · intro c hc
        exact lookupRecord_insertRecord_other s.records cid c _ hc
      · intro _
        exact ⟨lookupRecord_insertRecord_self s.records cid _ hrec,
               getRevision_ne_zero s.currentRev⟩
      · intro _ prev2 hprev2
        simp [hrec] at hprev2
      · intro _
        exact hv
    · have hres := Update_reject_create_nonzero s cid newLeases s.records tok v
        hown hpay hcid hrec hv
      rw [hres] at hcommit
      simp at hcommit

/-- Witness for C2: committing a singleton lease set through a revision-0 token
on an empty store creates the record with revision 2 and invalidates the
token. -/
theorem update_commit_spec_witness :
    lookupRecord
        (LeaseStore.Update (LeaseStore.New 4) ⟨0, [1]⟩ [⟨[], 100, none, none⟩]
            (some ⟨some 4, TokenPayload.tv ⟨0, ⟨0, [1]⟩⟩⟩)
            (LeaseStore.New 4).records).store.records ⟨0, [1]⟩ =
      some ⟨2, [⟨[], 100, none, none⟩]⟩ ∧
    (LeaseStore.Update (LeaseStore.New 4) ⟨0, [1]⟩ [⟨[], 100, none, none⟩]
        (some ⟨some 4, TokenPayload.tv ⟨0, ⟨0, [1]⟩⟩⟩)
        (LeaseStore.New 4).records).token =
      some ⟨none, TokenPayload.tv ⟨0, ⟨0, [1]⟩⟩⟩ := by
  have h := update_commit_spec (LeaseStore.New 4) ⟨0, [1]⟩ [⟨[], 100, none, none⟩]
    ⟨some 4, TokenPayload.tv ⟨0, ⟨0, [1]⟩⟩⟩ ⟨0, ⟨0, [1]⟩⟩ rfl rfl rfl (by decide)
  exact ⟨((h.2.2.2.1 (by decide)).1).trans (by decide), h.1⟩

/-- C3: the four precondition checks of Update fire in order with their exact
outcomes: an invalid token is rejected with ErrAlreadyInvalid, untouched; a
valid token owned elsewhere gets the plain foreign-plugin error, untouched; an
owned token whose payload is not a tokenValue is invalidated with the wrapped
corrupt-token error; an owned, well-typed token for a different ClientID gets
the plain mismatch error, untouched. In all four cases the store is returned
exactly as it was. -/
theorem update_precondition_order (s : LeaseStore) (cid : ClientID) (nl : List Lease)
    (interim : Records) :
    (∀ token, Token.Valid token = false →
      s.Update cid nl token interim = ⟨s, some ErrAlreadyInvalid, token, 0⟩) ∧
    (∀ token, Token.Valid token = true →
      Token.IsOwnedBy token (some s.storeId) = false →
      s.Update cid nl token interim =
        ⟨s, some (GoError.plainError "The token is for another plugin"), token, 0⟩) ∧
    (∀ tok : Token, tok.owner = some s.storeId →
      (∀ v, tok.Value ≠ TokenPayload.tv v) →
      s.Update cid nl (some tok) interim =
        ⟨s, some (GoError.tokenError (some "Corrupted token") ""),
         some { tok with owner := none }, 1⟩) ∧
    (∀ (tok : Token) (v : TokenValue), tok.owner = some s.storeId →
      tok.Value = TokenPayload.tv v → v.cid ≠ cid →
      s.Update cid nl (some tok) interim =
        ⟨s,
         some (GoError.plainError
           "The token was used for a different client than the one it was issued for"),
         some tok, 0⟩) :=
  ⟨fun token h => Update_invalid s cid nl token interim h,
   fun token hv ho => Update_foreign s cid nl token interim hv ho,
   fun tok hown hpay => Update_corrupt s cid nl interim tok hown hpay,
   fun tok v hown hpay hcid => Update_cid_mismatch s cid nl interim tok v hown hpay hcid⟩

/-- Witness for C3: the four rejections at concrete tokens against a fresh
store with identity 3. -/
theorem update_precondition_order_witness :
    LeaseStore.Update (LeaseStore.New 3) ⟨0, []⟩ [] none [] =
      ⟨LeaseStore.New 3, some ErrAlreadyInvalid, none, 0⟩ ∧
    LeaseStore.Update (LeaseStore.New 3) ⟨0, []⟩ []
        (some ⟨some 4, TokenPayload.tv ⟨0, ⟨0, []⟩⟩⟩) [] =
      ⟨LeaseStore.New 3, some (GoError.plainError "The token is for another plugin"),
       some ⟨some 4, TokenPayload.tv ⟨0, ⟨0, []⟩⟩⟩, 0⟩ ∧
    LeaseStore.Update (LeaseStore.New 3) ⟨0, []⟩ []
        (some ⟨some 3, TokenPayload.other 0⟩) [] =
      ⟨LeaseStore.New 3, some (GoError.tokenError (some "Corrupted token") ""),
       some ⟨none, TokenPayload.other 0⟩, 1⟩ ∧
    LeaseStore.Update (LeaseStore.New 3) ⟨0, []⟩ []
        (some ⟨some 3, TokenPayload.tv ⟨0, ⟨1, []⟩⟩⟩) [] =
      ⟨LeaseStore.New 3,
       some (GoError.plainError
         "The token was used for a different client than the one it was issued for"),
       some ⟨some 3, TokenPayload.tv ⟨0, ⟨1, []⟩⟩⟩, 0⟩ := by
  have h := update_precondition_order (LeaseStore.New 3) ⟨0, []⟩ [] []
  exact ⟨h.1 none rfl,
         h.2.1 (some ⟨some 4, TokenPayload.tv ⟨0, ⟨0, []⟩⟩⟩) rfl (by decide),
         h.2.2.1 ⟨some 3, TokenPayload.other 0⟩ rfl
           (fun v hv => TokenPayload.noConfusion hv),
         h.2.2.2 ⟨some 3, TokenPayload.tv ⟨0, ⟨1, []⟩⟩⟩ ⟨0, ⟨1, []⟩⟩ rfl rfl (by decide)⟩

/-- C4: Lookup never returns an error; an absent record yields the empty list
and a token capturing revision 0; a present record yields the deep copies of
its leases (each value-equal to the original, so the returned snapshot equals
the record content) and a token capturing the record's revision. -/
theorem lookup_spec (s : LeaseStore) (cid : ClientID) :
    (s.Lookup cid).err = none ∧
    (lookupRecord s.records cid = none →
      (s.Lookup cid).leases = [] ∧
      (s.Lookup cid).token = NewToken (some s.storeId) (TokenPayload.tv ⟨0, cid⟩)) ∧
    (∀ recs, lookupRecord s.records cid = some recs →
      (s.Lookup cid).leases = recs.leases.map duplicateLease ∧
      recs.leases.map duplicateLease = recs.leases ∧
      (s.Lookup cid).token =
        NewToken (some s.storeId) (TokenPayload.tv ⟨recs.revision, cid⟩)) := by
  cases hrec : lookupRecord s.records cid with
  | none =>
    refine ⟨?_, ?_, ?_⟩
    · simp [LeaseStore.Lookup, hrec]
    · intro _
      constructor <;> simp [LeaseStore.Lookup, hrec]
    · intro recs h
      exact Option.noConfusion h
  | some recs0 =>
    refine ⟨?_, ?_, ?_⟩
    · simp [LeaseStore.Lookup, hrec]
    · intro h
      exact Option.noConfusion h
    · intro recs h
      injection h with h
      subst h
      exact ⟨by simp [LeaseStore.Lookup, hrec], map_duplicateLease_eq recs0.leases,
             by simp [LeaseStore.Lookup, hrec]⟩

/-- Witness for C4: on a store with one record, Lookup of the bound ClientID
returns the record's leases and its revision, Lookup of an unbound ClientID
returns the empty snapshot at revision 0, and neither errs. -/
theorem lookup_spec_witness :
    (LeaseStore.Lookup ⟨2, [(⟨0, [1]⟩, ⟨4, [⟨[⟨[10], [255]⟩], 100, none, none⟩]⟩)], 6⟩
        ⟨0, [1]⟩).err = none ∧
    (LeaseStore.Lookup ⟨2, [(⟨0, [1]⟩, ⟨4, [⟨[⟨[10], [255]⟩], 100, none, none⟩]⟩)], 6⟩
        ⟨0, [1]⟩).leases = [⟨[⟨[10], [255]⟩], 100, none, none⟩] ∧
    (LeaseStore.Lookup ⟨2, [(⟨0, [1]⟩, ⟨4, [⟨[⟨[10], [255]⟩], 100, none, none⟩]⟩)], 6⟩
        ⟨0, [1]⟩).token = ⟨some 2, TokenPayload.tv ⟨4, ⟨0, [1]⟩⟩⟩ ∧
    (LeaseStore.Lookup ⟨2, [(⟨0, [1]⟩, ⟨4, [⟨[⟨[10], [255]⟩], 100, none, none⟩]⟩)], 6⟩
        ⟨0, [2]⟩).leases = [] := by
  have hA := lookup_spec ⟨2, [(⟨0, [1]⟩, ⟨4, [⟨[⟨[10], [255]⟩], 100, none, none⟩]⟩)], 6⟩
    ⟨0, [1]⟩
  have hB := lookup_spec ⟨2, [(⟨0, [1]⟩, ⟨4, [⟨[⟨[10], [255]⟩], 100, none, none⟩]⟩)], 6⟩
    ⟨0, [2]⟩
  refine ⟨hA.1, ?_, ?_, (hB.2.1 (by decide)).1⟩
  · exact ((hA.2.2 ⟨4, [⟨[⟨[10], [255]⟩], 100, none, none⟩]⟩ (by decide)).1).trans
      (by decide)
  · exact ((hA.2.2 ⟨4, [⟨[⟨[10], [255]⟩], 100, none, none⟩]⟩ (by decide)).2.2).trans
      (by decide)

/-- C5: for a record with non-zero revision visited by the sweep with cutoff =
now minus the one-minute grace: the record afterwards holds exactly its leases
whose expiry is not before the cutoff, in order; its cleaned count is the
number of leases removed; if some lease expired and some remain the revision is
the fresh counter value, strictly greater than before (given the store
invariant that the record revision does not exceed the counter and the counter
has not wrapped); if some lease expired and none remain the record is reset to
(0, []) and marked as a cleanup candidate; and a full Expire's returned cleaned
count equals the total number of leases removed from the store. -/
theorem expire_record_spec (now : Int) (cur : Nat) (st : Storage)
    (hrev : st.revision ≠ 0) (hle : st.revision ≤ cur) (hcur : cur + 1 < 2 ^ 64) :
    (expireRecordStep (now - expireGrace) cur st).stor.leases =
      st.leases.filter (fun l => ! leaseExpired (now - expireGrace) l) ∧
    (expireRecordStep (now - expireGrace) cur st).cleaned =
      (st.leases.filter (leaseExpired (now - expireGrace))).length ∧
    (0 < (st.leases.filter (leaseExpired (now - expireGrace))).length →
      st.leases.filter (fun l => ! leaseExpired (now - expireGrace) l) ≠ [] →
      (expireRecordStep (now - expireGrace) cur st).stor.revision =
        (getRevision cur).2 ∧
      st.revision < (expireRecordStep (now - expireGrace) cur st).stor.revision) ∧
    (0 < (st.leases.filter (leaseExpired (now - expireGrace))).length →
      st.leases.filter (fun l => ! leaseExpired (now - expireGrace) l) = [] →
      (expireRecordStep (now - expireGrace) cur st).stor = ⟨0, []⟩ ∧
      (expireRecordStep (now - expireGrace) cur st).candidate = true) ∧
    (∀ (s : LeaseStore) (workAmount now2 : Int),
      (s.Expire workAmount now2).cleaned +
        totalLeases (s.Expire workAmount now2).records = totalLeases s.records) := by
  have hacc : 0 < (st.leases.filter (leaseExpired (now - expireGrace))).length →
      (scanLeases (now - expireGrace) st.leases [] none 0 []).cleanedLeases =
        some (st.leases.filter (fun l => ! leaseExpired (now - expireGrace) l)) := by
    intro hexp
    have hne : st.leases.filter (leaseExpired (now - expireGrace)) ≠ [] := by
      intro hnil
      rw [hnil] at hexp
      simp at hexp
    obtain ⟨a, hmem⟩ := List.exists_mem_of_ne_nil _ hne
    have hmem2 := List.mem_filter.mp hmem
    have ha : st.leases.any (leaseExpired (now - expireGrace)) = true := by
      rw [List.any_eq_true]
      exact ⟨a, hmem2.1, hmem2.2⟩
    have hL := scanLeases_acc_none (now - expireGrace) st.leases [] 0 []
    rw [if_pos ha, List.nil_append] at hL
    exact hL
  refine ⟨(expireRecordStep_leases_cleaned (now - expireGrace) cur st).1,
          (expireRecordStep_leases_cleaned (now - expireGrace) cur st).2, ?_, ?_, ?_⟩
  · intro hexp hkept
    have hL := hacc hexp
    have hpos :
        0 < (st.leases.filter (fun l => ! leaseExpired (now - expireGrace) l)).length :=
      List.length_pos.mpr hkept
    have hr2 : (expireRecordStep (now - expireGrace) cur st).stor.revision =
        (getRevision cur).2 := by
      simp [expireRecordStep, hL, hpos]
    refine ⟨hr2, ?_⟩
    rw [hr2, getRevision_val_of_lt cur hcur]
    omega
  · intro hexp hkept
    have hL := hacc hexp
    rw [hkept] at hL
    constructor
    · simp [expireRecordStep, hL]
    · simp [expireRecordStep, hL]
  · intro s w n2
    have h := expireLoop_cleaned_eq (n2 - expireGrace) w s.records s.currentRev 0 [] []
    simpa [LeaseStore.Expire] using h

/-- Witness for C5: a record at revision 5 holding leases expiring at
now-300s, now+3600s and now-300s, swept at now = 0 with counter 7: the middle
lease survives under revision 8 > 5, two leases are cleaned, and the full
Expire accounting holds on the enclosing store. -/
theorem expire_record_spec_witness :
    (expireRecordStep (0 - expireGrace) 7
        ⟨5, [⟨[], -300, none, some 1⟩, ⟨[], 3600, none, none⟩, ⟨[], -300, none, some 3⟩]⟩).stor.leases =
      [⟨[], 3600, none, none⟩] ∧
    (expireRecordStep (0 - expireGrace) 7
        ⟨5, [⟨[], -300, none, some 1⟩, ⟨[], 3600, none, none⟩, ⟨[], -300, none, some 3⟩]⟩).cleaned = 2 ∧
    (expireRecordStep (0 - expireGrace) 7
        ⟨5, [⟨[], -300, none, some 1⟩, ⟨[], 3600, none, none⟩, ⟨[], -300, none, some 3⟩]⟩).stor.revision = 8 ∧
    5 < (expireRecordStep (0 - expireGrace) 7
        ⟨5, [⟨[], -300, none, some 1⟩, ⟨[], 3600, none, none⟩, ⟨[], -300, none, some 3⟩]⟩).stor.revision ∧
    (LeaseStore.Expire ⟨1, [(⟨0, []⟩,
        ⟨5, [⟨[], -300, none, some 1⟩, ⟨[], 3600, none, none⟩, ⟨[], -300, none, some 3⟩]⟩)], 7⟩
        10 0).cleaned +
      totalLeases (LeaseStore.Expire ⟨1, [(⟨0, []⟩,
        ⟨5, [⟨[], -300, none, some 1⟩, ⟨[], 3600, none, none⟩, ⟨[], -300, none, some 3⟩]⟩)], 7⟩
        10 0).records =
      totalLeases [(⟨0, []⟩,
        ⟨5, [⟨[], -300, none, some 1⟩, ⟨[], 3600, none, none⟩, ⟨[], -300, none, some 3⟩]⟩)] := by
  have h := expire_record_spec 0 7
    ⟨5, [⟨[], -300, none, some 1⟩, ⟨[], 3600, none, none⟩, ⟨[], -300, none, some 3⟩]⟩
    (by decide) (by decide) (by decide)
  refine ⟨h.1.trans (by decide), (h.2.1).trans (by decide), ?_, ?_, ?_⟩
  · exact (h.2.2.1 (by decide) (by decide)).1.trans (by decide)
  · exact (h.2.2.1 (by decide) (by decide)).2
  · exact h.2.2.2.2 ⟨1, [(⟨0, []⟩,
      ⟨5, [⟨[], -300, none, some 1⟩, ⟨[], 3600, none, none⟩, ⟨[], -300, none, some 3⟩]⟩)], 7⟩
      10 0

/-- C6 counterexample: the revision stream from a fresh store repeats the
non-zero value 2 at the 1st and the 2 ^ 64-th getRevision calls, and strictly
decreases across the counter wraparound, so neither the claimed global
uniqueness nor unbounded strict monotonicity holds. -/
theorem revision_wraparound_counterexample :
    revisionSeq 1 = 2 ∧ revisionSeq (2 ^ 64) = 2 ∧ (1 : Nat) ≠ 2 ^ 64 ∧
    revisionSeq 1 ≠ 0 ∧
    revisionSeq (2 ^ 64 - 1) < revisionSeq (2 ^ 64 - 2) := by
  have h1 := revisionSeq_formula 1
  have h2 := revisionSeq_formula (2 ^ 64)
  have h3 := revisionSeq_formula (2 ^ 64 - 1)
  have h4 := revisionSeq_formula (2 ^ 64 - 2)
  have e64 : (2 : Nat) ^ 64 = 18446744073709551616 := by norm_num
  rw [e64] at h1 h2 h3 h4 ⊢
  omega

/-- C6 amended: getRevision never returns 0 and stores exactly the value it
returns; from a fresh store the n-th issued revision is n % (2 ^ 64 - 1) + 1,
so issued revisions are strictly increasing (hence pairwise distinct and, per
ClientID, the non-zero revisions seen by successive Lookups increase) as long
as the counter has not wrapped, i.e. among the first 2 ^ 64 - 2 calls; and
every record revision that Update or the expiry sweep writes is either an
unchanged or re-read one, the reset value 0, or the value freshly obtained
from getRevision on the current counter. -/
theorem revision_freshness_amended :
    (∀ c, (getRevision c).2 ≠ 0) ∧
    (∀ c, (getRevision c).1 = (getRevision c).2) ∧
    (∀ n, revisionSeq n = n % (2 ^ 64 - 1) + 1) ∧
    (∀ i j : Nat, 1 ≤ i → i < j → j ≤ 2 ^ 64 - 2 → revisionSeq i < revisionSeq j) ∧
    (∀ (s : LeaseStore) (cid : ClientID) (nl : List Lease) (token : Option Token)
       (interim : Records) (c : ClientID) (st : Storage),
      lookupRecord (s.Update cid nl token interim).store.records c = some st →
      lookupRecord s.records c = some st ∨ lookupRecord interim c = some st ∨
      st.revision = 0 ∨ st.revision = (getRevision s.currentRev).2) ∧
    (∀ (cutoff : Int) (cur : Nat) (st : Storage),
      (expireRecordStep cutoff cur st).stor.revision = st.revision ∨
      (expireRecordStep cutoff cur st).stor.revision = 0 ∨
      (expireRecordStep cutoff cur st).stor.revision = (getRevision cur).2) := by
  refine ⟨getRevision_ne_zero, getRevision_counter_eq, revisionSeq_formula, ?_, ?_,
          expireRecordStep_revision_cases⟩
  · intro i j hi hij hj
    rw [revisionSeq_formula i, revisionSeq_formula j]
    have e64 : (2 : Nat) ^ 64 = 18446744073709551616 := by norm_num
    rw [e64] at hj ⊢
    omega
  · intro s cid nl token interim c st hsome
    rcases Update_records_result s cid nl token interim with
      h | h | ⟨st0, h, hrev0⟩ | ⟨st0, h, hrev0⟩
    · rw [h] at hsome
      exact Or.inl hsome
    · rw [h] at hsome
      exact Or.inr (Or.inl hsome)
    · rw [h] at hsome
      by_cases hc : c = cid
      · subst hc
        cases hrec : lookupRecord s.records c with
        | none =>
          rw [setRecord_of_absent s.records c st0 hrec] at hsome
          rw [hrec] at hsome
          exact Option.noConfusion hsome
        | some stp =>
          rw [lookupRecord_setRecord_self s.records c st0 stp hrec] at hsome
          injection hsome with hsome
          subst hsome
          rcases hrev0 with h0 | h0
          · exact Or.inr (Or.inr (Or.inl h0))
          · exact Or.inr (Or.inr (Or.inr h0))
      · rw [lookupRecord_setRecord_other s.records cid c st0 hc] at hsome
        exact Or.inl hsome
    · rw [h] at hsome
      by_cases hc : c = cid
      · subst hc
        rw [lookupRecord_append_single interim c c st0] at hsome
        cases hint : lookupRecord interim c with
        | some sti =>
          rw [hint] at hsome
          have hsome2 : some sti = some st := hsome
          injection hsome2 with he
          exact Or.inr (Or.inl (by rw [he]))
        | none =>
          rw [hint] at hsome
          have hsome2 : (if c = c then some st0 else none) = some st := hsome
          rw [if_pos rfl] at hsome2
          injection hsome2 with he
          rw [← he]
          exact Or.inr (Or.inr (Or.inr hrev0))
      · rw [lookupRecord_insertRecord_other interim cid c st0 hc] at hsome
        exact Or.inr (Or.inl hsome)

/-- Witness for C6 amended, at concrete counters, call indices, an Update on a
store whose token is invalid (records unchanged) and a no-op sweep step. -/
theorem revision_freshness_amended_witness :
    (getRevision 0).2 ≠ 0 ∧
    revisionSeq 3 = 4 ∧
    revisionSeq 1 < revisionSeq 2 ∧
    (lookupRecord
        (LeaseStore.Update ⟨1, [(⟨0, []⟩, ⟨3, []⟩)], 5⟩ ⟨0, []⟩ [] none []).store.records
        ⟨0, []⟩ = some ⟨3, []⟩ →
      lookupRecord [(⟨0, []⟩, ⟨3, []⟩)] ⟨0, []⟩ = some ⟨3, []⟩ ∨
      lookupRecord ([] : Records) ⟨0, []⟩ = some ⟨3, []⟩ ∨
      (Storage.mk 3 []).revision = 0 ∨
      (Storage.mk 3 []).revision = (getRevision 5).2) ∧
    ((expireRecordStep 0 5 ⟨3, []⟩).stor.revision = (Storage.mk 3 []).revision ∨
     (expireRecordStep 0 5 ⟨3, []⟩).stor.revision = 0 ∨
     (expireRecordStep 0 5 ⟨3, []⟩).stor.revision = (getRevision 5).2) := by
  have h := revision_freshness_amended
  exact ⟨h.1 0, (h.2.2.1 3).trans (by decide),
         h.2.2.2.1 1 2 (by decide) (by decide) (by decide),
         h.2.2.2.2.1 ⟨1, [(⟨0, []⟩, ⟨3, []⟩)], 5⟩ ⟨0, []⟩ [] none [] ⟨0, []⟩ ⟨3, []⟩,
         h.2.2.2.2.2 0 5 ⟨3, []⟩⟩

/-- C7: under the loop-variable capture semantics this module compiles with
(go.mod declares go 1.13), a record with two expired leases carrying distinct
actions spawns two goroutines that, run after the sweep, both invoke the second
lease's action with the second lease's elements and expiry, instead of the one
per-lease invocation with that lease's own arguments that the claim requires. -/
theorem expire_callback_loop_capture :
    expireCallbacksGo113 (0 - expireGrace)
        [⟨[⟨[10, 0, 0, 1], [255, 255, 255, 255]⟩], -300, none, some 1⟩,
         ⟨[⟨[10, 0, 0, 2], [255, 255, 255, 255]⟩], -180, none, some 2⟩] =
      [some ⟨2, [⟨[10, 0, 0, 2], [255, 255, 255, 255]⟩], -180⟩,
       some ⟨2, [⟨[10, 0, 0, 2], [255, 255, 255, 255]⟩], -180⟩] ∧
    (scanLeases (0 - expireGrace)
        [⟨[⟨[10, 0, 0, 1], [255, 255, 255, 255]⟩], -300, none, some 1⟩,
         ⟨[⟨[10, 0, 0, 2], [255, 255, 255, 255]⟩], -180, none, some 2⟩]
        [] none 0 []).callbacks =
      [⟨1, [⟨[10, 0, 0, 1], [255, 255, 255, 255]⟩], -300⟩,
       ⟨2, [⟨[10, 0, 0, 2], [255, 255, 255, 255]⟩], -180⟩] ∧
    expireCallbacksGo113 (0 - expireGrace)
        [⟨[⟨[10, 0, 0, 1], [255, 255, 255, 255]⟩], -300, none, some 1⟩,
         ⟨[⟨[10, 0, 0, 2], [255, 255, 255, 255]⟩], -180, none, some 2⟩] ≠
      ((scanLeases (0 - expireGrace)
        [⟨[⟨[10, 0, 0, 1], [255, 255, 255, 255]⟩], -300, none, some 1⟩,
         ⟨[⟨[10, 0, 0, 2], [255, 255, 255, 255]⟩], -180, none, some 2⟩]
        [] none 0 []).callbacks).map some := by
  refine ⟨by decide, by decide, by decide⟩

/-- C8: the cleanup pass deletes a candidate only when its record is still at
revision 0 at the moment of removal: records at a non-zero revision survive
untouched, a binding that disappears was at revision 0, and non-candidates are
never affected. -/
theorem cleanup_safety (rs : Records) (cands : List ClientID) :
    (∀ c st, lookupRecord rs c = some st → st.revision ≠ 0 →
      lookupRecord (cleanup rs cands) c = some st) ∧
    (∀ c st, lookupRecord rs c = some st → lookupRecord (cleanup rs cands) c = none →
      st.revision = 0) ∧
    (∀ c, c ∉ cands → lookupRecord (cleanup rs cands) c = lookupRecord rs c) := by
  refine ⟨fun c st h hr => cleanup_keeps_nonzero cands rs c st h hr, ?_,
          fun c hc => cleanup_not_candidate cands rs c hc⟩
  intro c st h hnone
  by_cases h0 : st.revision = 0
  · exact h0
  · rw [cleanup_keeps_nonzero cands rs c st h h0] at hnone
    exact Option.noConfusion hnone

/-- Witness for C8: cleaning candidates over a map with one empty and one
resurrected record keeps the revision-5 record and leaves non-candidates
alone. -/
theorem cleanup_safety_witness :
    lookupRecord (cleanup [(⟨0, [1]⟩, ⟨0, []⟩), (⟨0, [2]⟩, ⟨5, []⟩)]
        [⟨0, [1]⟩, ⟨0, [2]⟩, ⟨0, [3]⟩]) ⟨0, [2]⟩ = some ⟨5, []⟩ ∧
    lookupRecord (cleanup [(⟨0, [1]⟩, ⟨0, []⟩), (⟨0, [2]⟩, ⟨5, []⟩)]
        [⟨0, [1]⟩, ⟨0, [2]⟩, ⟨0, [3]⟩]) ⟨0, [4]⟩ =
      lookupRecord [(⟨0, [1]⟩, ⟨0, []⟩), (⟨0, [2]⟩, ⟨5, []⟩)] ⟨0, [4]⟩ := by
  have h := cleanup_safety [(⟨0, [1]⟩, ⟨0, []⟩), (⟨0, [2]⟩, ⟨5, []⟩)]
    [⟨0, [1]⟩, ⟨0, [2]⟩, ⟨0, [3]⟩]
  exact ⟨h.1 ⟨0, [2]⟩ ⟨5, []⟩ (by decide) (by decide), h.2.2 ⟨0, [4]⟩ (by decide)⟩

/-- C9: the foreign-token and cid-mismatch errors Update returns are plain
errors that do not satisfy errors.Is(e, ErrToken), while ErrToken,
ErrAlreadyInvalid, ErrConcurrentUpdate and the wrapped corrupt-token error
that Update returns all do. -/
theorem token_error_predicate :
    (LeaseStore.Update ⟨1, [], 5⟩ ⟨0, []⟩ []
        (some ⟨some 2, TokenPayload.tv ⟨0, ⟨0, []⟩⟩⟩) []).err =
      some (GoError.plainError "The token is for another plugin") ∧
    errorsIsErrToken (GoError.plainError "The token is for another plugin") = false ∧
    (LeaseStore.Update ⟨1, [], 5⟩ ⟨0, []⟩ []
        (some ⟨some 1, TokenPayload.tv ⟨0, ⟨1, []⟩⟩⟩) []).err =
      some (GoError.plainError
        "The token was used for a different client than the one it was issued for") ∧
    errorsIsErrToken (GoError.plainError
      "The token was used for a different client than the one it was issued for") = false ∧
    (LeaseStore.Update ⟨1, [], 5⟩ ⟨0, []⟩ []
        (some ⟨some 1, TokenPayload.other 7⟩) []).err =
      some (GoError.tokenError (some "Corrupted token") "") ∧
    errorsIsErrToken ErrToken = true ∧
    errorsIsErrToken ErrAlreadyInvalid = true ∧
    errorsIsErrToken ErrConcurrentUpdate = true ∧
    errorsIsErrToken (GoError.tokenError (some "Corrupted token") "") = true := by
  decide

/-- C10: NewToken with a nil owner yields the zero Token; nil, zero and
invalidated tokens are never valid, never owned by any store (nil included),
and invalidating them is a no-op performing no ReleaseToken call; invalidating
a valid token calls ReleaseToken exactly once, and invalidating it again is a
no-op. -/
theorem token_lifecycle :
    (∀ v, NewToken none v = ⟨none, TokenPayload.nilPayload⟩) ∧
    (Token.Valid none = false) ∧
    (∀ t : Token, t.owner = none → Token.Valid (some t) = false) ∧
    (∀ p, Token.IsOwnedBy none p = false) ∧
    (∀ (t : Token) (p : Option Nat), t.owner = none →
      Token.IsOwnedBy (some t) p = false) ∧
    (Token.Invalidate none = (none, 0)) ∧
    (∀ t : Token, t.owner = none → Token.Invalidate (some t) = (some t, 0)) ∧
    (∀ (t : Token) (o : Nat), t.owner = some o →
      Token.Invalidate (some t) = (some { t with owner := none }, 1) ∧
      Token.Invalidate (Token.Invalidate (some t)).1 =
        ((Token.Invalidate (some t)).1, 0)) := by
  refine ⟨fun v => rfl, rfl, ?_, fun p => ?_, ?_, rfl, ?_, ?_⟩
  · intro t h
    simp [Token.Valid, h]
  · cases p <;> rfl
  · intro t p h
    cases p with
    | none => rfl
    | some q => simp [Token.IsOwnedBy, h]
  · intro t h
    simp [Token.Invalidate, h]
  · intro t o h
    constructor
    · simp [Token.Invalidate, h]
    · simp [Token.Invalidate, h]

/-- Witness for C10 at concrete tokens: the zero token is inert and a token
owned by store 5 is released exactly once and is inert afterwards. -/
theorem token_lifecycle_witness :
    NewToken none (TokenPayload.other 9) = ⟨none, TokenPayload.nilPayload⟩ ∧
    Token.Valid (some ⟨none, TokenPayload.nilPayload⟩) = false ∧
    Token.IsOwnedBy (some ⟨none, TokenPayload.nilPayload⟩) (some 5) = false ∧
    Token.Invalidate (some ⟨none, TokenPayload.nilPayload⟩) =
      (some ⟨none, TokenPayload.nilPayload⟩, 0) ∧
    Token.Invalidate (some ⟨some 5, TokenPayload.nilPayload⟩) =
      (some ⟨none, TokenPayload.nilPayload⟩, 1) ∧
    Token.Invalidate
        (Token.Invalidate (some ⟨some 5, TokenPayload.nilPayload⟩)).1 =
      ((Token.Invalidate (some ⟨some 5, TokenPayload.nilPayload⟩)).1, 0) := by
  obtain ⟨h1, h2, h3, h4, h5, h6, h7, h8⟩ := token_lifecycle
  exact ⟨h1 (TokenPayload.other 9), h3 ⟨none, TokenPayload.nilPayload⟩ rfl,
         h5 ⟨none, TokenPayload.nilPayload⟩ (some 5) rfl,
         h7 ⟨none, TokenPayload.nilPayload⟩ rfl,
         (h8 ⟨some 5, TokenPayload.nilPayload⟩ 5 rfl).1,
         (h8 ⟨some 5, TokenPayload.nilPayload⟩ 5 rfl).2⟩

end CoreDHCP
